import Mathlib

/-!
# Verification of `tcpdrunk` (`src/main.rs`)

A shallow embedding of the tcpdump-output colorizer `tcpdrunk`.  Input bytes
are modelled as `List Char` (each `Char` stands for one `u8`; all inputs of
interest are ASCII).  The nom 5 `bytes::streaming` combinators used by the
source (`tag`, `take`, `take_while1`, `map`, `pair`, `preceded`,
`separated_pair`, `alt`) are embedded as functions returning a `PResult`,
with the streaming semantics: a parser that runs off the end of the input
reports `incomplete`, a structural mismatch reports `error`.  A Rust panic
escaping a parser (the `unwrap` inside `parse_host_port`) is modelled by the
`panic` outcome, which no combinator (in particular not `alt`) catches.
-/

/-- Outcome of running an embedded nom streaming parser:
`ok rest value`, a recoverable structural `error`, `incomplete`
(nom `Err::Incomplete`: more input is needed), or a Rust `panic`
unwinding out of the parser with the given message. -/
inductive PResult (α : Type) where
  | ok (rest : List Char) (value : α)
  | error
  | incomplete
  | panic (msg : List Char)
deriving DecidableEq

/-- An embedded parser over byte lists. -/
abbrev NomP (α : Type) := List Char → PResult α

/-- Sequencing of parser outcomes: failure modes propagate. -/
def PResult.andThen {α β : Type} (r : PResult α) (f : List Char → α → PResult β) : PResult β :=
  match r with
  | .ok rest v => f rest v
  | .error => .error
  | .incomplete => .incomplete
  | .panic m => .panic m

/-- Ordered choice on outcomes: the alternative is tried only after a
recoverable `error` (nom's `alt` does not catch `Incomplete` or a panic). -/
def PResult.orElse {α : Type} (r : PResult α) (f : Unit → PResult α) : PResult α :=
  match r with
  | .error => f ()
  | r => r

/-- nom `bytes::streaming::take_while1`: consumes the longest non-empty
prefix satisfying `p`; if the match reaches the end of the input the result
is `incomplete`, and if the first byte already fails `p` it is `error`. -/
def nomTakeWhile1 (p : Char → Bool) : NomP (List Char) := fun input =>
  let matched := input.takeWhile p
  let rest := input.dropWhile p
  if rest = [] then .incomplete
  else if matched = [] then .error
  else .ok rest matched

/-- nom `bytes::streaming::tag`: matches the literal `t`; a short input that
agrees with the beginning of `t` is `incomplete`, a disagreement is `error`. -/
def nomTag (t : List Char) : NomP (List Char) := fun input =>
  if t.isPrefixOf input then .ok (input.drop t.length) t
  else if input.isPrefixOf t then .incomplete
  else .error

/-- nom `bytes::streaming::take`: returns exactly `n` bytes,
or `incomplete` when fewer are available. -/
def nomTake (n : Nat) : NomP (List Char) := fun input =>
  if input.length < n then .incomplete else .ok (input.drop n) (input.take n)

/-- nom `combinator::map` with a pure Rust closure. -/
def nomMap {α β : Type} (p : NomP α) (f : α → β) : NomP β := fun input =>
  (p input).andThen fun rest v => .ok rest (f v)

/-- nom `combinator::map` with a Rust closure that may panic
(modelled by `Except.error` carrying the panic message). -/
def nomMapE {α β : Type} (p : NomP α) (f : α → Except (List Char) β) : NomP β := fun input =>
  (p input).andThen fun rest v =>
    match f v with
    | .ok b => .ok rest b
    | .error m => .panic m

/-- nom `sequence::pair`. -/
def nomPair {α β : Type} (a : NomP α) (b : NomP β) : NomP (α × β) := fun input =>
  (a input).andThen fun r1 va => (b r1).andThen fun r2 vb => .ok r2 (va, vb)

/-- nom `sequence::preceded`. -/
def nomPreceded {α β : Type} (a : NomP α) (b : NomP β) : NomP β := fun input =>
  (a input).andThen fun r1 _ => b r1

/-- nom `sequence::separated_pair`. -/
def nomSeparatedPair {α β γ : Type} (a : NomP α) (sep : NomP γ) (b : NomP β) :
    NomP (α × β) := fun input =>
  (a input).andThen fun r1 va =>
    (sep r1).andThen fun r2 _ => (b r2).andThen fun r3 vb => .ok r3 (va, vb)

/-- nom `branch::alt` over the three line alternatives (moves on only
after a recoverable `error`). -/
def nomAlt3 {α : Type} (p1 p2 p3 : NomP α) : NomP α := fun input =>
  ((p1 input).orElse fun _ => (p2 input).orElse fun _ => p3 input)

/-- Rust `u8::is_ascii_whitespace` (space, tab, newline, form feed,
carriage return). -/
def isAsciiWhitespace (c : Char) : Bool :=
  (c == ' ') || (c == '\t') || (c == '\n') || (c == '\x0C') || (c == '\r')

/-- Rust `struct HostPort<'a> { host: &'a [u8], port: &'a [u8] }`. -/
structure HostPort where
  host : List Char
  port : List Char
deriving DecidableEq

/-- Rust `enum TcpdumpLine<'a> { Ip(..), Tcp(..), Data(..) }`. -/
inductive TcpdumpLine where
  | Ip (timestamp frameInfo : List Char)
  | Tcp (source dest : HostPort) (info : List Char)
  | Data (hex approx : List Char)
deriving DecidableEq

/-- Embeds `fn not_whitespace`. -/
def not_whitespace : NomP (List Char) :=
  nomTakeWhile1 (fun c => !(isAsciiWhitespace c))

/-- Embeds `fn not_linebreak`. -/
def not_linebreak : NomP (List Char) :=
  nomTakeWhile1 (fun c => c != '\n')

/-- Embeds `fn not_colon`. -/
def not_colon : NomP (List Char) :=
  nomTakeWhile1 (fun c => c != ':')

/-- Embeds `fn parse_timestamp`. -/
def parse_timestamp : NomP (List Char) := not_whitespace

/-- Embeds `fn frame_info`. -/
def frame_info : NomP (List Char) := not_linebreak

/-- Embeds `fn parse_ip_line`. -/
def parse_ip_line : NomP TcpdumpLine :=
  nomMap (nomSeparatedPair parse_timestamp (nomTag " IP ".data) frame_info)
    (fun ab => .Ip ab.1 ab.2)

/-- Rust `Iterator::rposition`: index of the last element satisfying `p`. -/
def rposition (p : Char → Bool) : List Char → Option Nat
  | [] => none
  | c :: rest =>
      match rposition p rest with
      | some i => some (i + 1)
      | none => if p c then some 0 else none

/-- The fixed message of the panic raised by `Option::unwrap` on `None`
(`parse_host_port` unwraps the `rposition` result). -/
def unwrapPanicMsg : List Char :=
  "called `Option::unwrap()` on a `None` value".data

/-- Embeds `fn parse_host_port`: split at the last `'.'`; when the token has no
`'.'` the `unwrap` panics, modelled as `Except.error unwrapPanicMsg`. -/
def parse_host_port (input : List Char) : Except (List Char) HostPort :=
  match rposition (fun v => v == '.') input with
  | none => .error unwrapPanicMsg
  | some last_dot => .ok ⟨input.take last_dot, input.drop (last_dot + 1)⟩

/-- Embeds `fn tcp_source`. -/
def tcp_source : NomP HostPort :=
  nomMapE (nomPreceded (nomTag "    ".data) not_whitespace) parse_host_port

/-- Embeds `fn tcp_dest`. -/
def tcp_dest : NomP HostPort :=
  nomMapE (nomPreceded (nomTag " > ".data) not_colon) parse_host_port

/-- Embeds `fn tcp_info`. -/
def tcp_info : NomP (List Char) := not_linebreak

/-- Embeds `fn parse_tcp_line`. -/
def parse_tcp_line : NomP TcpdumpLine :=
  nomMap (nomPair (nomPair tcp_source tcp_dest) tcp_info)
    (fun abc => .Tcp abc.1.1 abc.1.2 abc.2)

/-- Embeds `fn offset`. -/
def offset : NomP (List Char) := not_colon

/-- Embeds `fn data`. -/
def data : NomP (List Char) :=
  nomPreceded (nomTag ":  ".data) (nomTake 39)

/-- Embeds `fn approximation`. -/
def approximation : NomP (List Char) :=
  nomPreceded (nomTag "  ".data) not_linebreak

/-- Embeds `fn parse_data_line`. -/
def parse_data_line : NomP TcpdumpLine :=
  nomMap (nomPair (nomPair offset data) approximation)
    (fun abc => .Data abc.1.2 abc.2)

/-- Embeds `fn tcpdump_parser` (renamed `tcpdumpParser`). -/
def tcpdumpParser : NomP TcpdumpLine :=
  nomAlt3 parse_ip_line parse_tcp_line parse_data_line

/-- The six-color palette of the `colored` crate as used by the source. -/
inductive Color where
  | Red | Green | Yellow | Blue | Magenta | Cyan
deriving DecidableEq

/-- The Rust `match len % 6 { 0 => Red, .., 5 => Cyan, _ => unreachable }`
(the catch-all arm of the Rust `match` can never fire since `len % 6 < 6`). -/
def paletteColor (len : Nat) : Color :=
  match len % 6 with
  | 0 => .Red
  | 1 => .Green
  | 2 => .Yellow
  | 3 => .Blue
  | 4 => .Magenta
  | _ => .Cyan

/-- The `colored::ColoredString` type: a text with the color it was given. -/
structure ColoredStr where
  text : List Char
  color : Color
deriving DecidableEq

/-- The `HashMap<String, ColoredString>` color table, modelled as an
insertion-ordered association list (only `len`, lookup and insertion of a
fresh key are ever used, so the order of iteration is irrelevant). -/
abbrev ColorTable := List (List Char × ColoredStr)

/-- Association-list lookup (`HashMap::entry` hit/miss). -/
def lookupTbl (s : List Char) : ColorTable → Option ColoredStr
  | [] => none
  | (k, c) :: rest => if k = s then some c else lookupTbl s rest

/-- Embeds `fn colored_string`: look the decoded host text up in the table;
on a miss, color it with slot `len % 6` where `len` is the table size
before insertion, insert, and return it. -/
def colored_string (text : List Char) (m : ColorTable) : ColoredStr × ColorTable :=
  let len := m.length
  match lookupTbl text m with
  | some c => (c, m)
  | none =>
      let c : ColoredStr := ⟨text, paletteColor len⟩
      (c, m ++ [(text, c)])

/-- One observable output event of the program:
a `println!` of a flushed buffer, the `println!` of a `"\n{} -> {}"`
host-pair banner, or an `eprintln!` diagnostic. -/
inductive Out where
  | line (s : List Char)
  | banner (source dest : ColoredStr)
  | err (s : List Char)
deriving DecidableEq

/-- Embeds `fn write_repr`: select the representation by the configured mode. -/
def write_repr (approx hex : List Char) (repr : List Char) : List Out :=
  if repr = "approximation".data then [.line approx]
  else if repr = "hex".data then [.line hex]
  else [.err "Data ignored".data]

/-- The mutable state of `main`'s loop: the two accumulator buffers and the
color table. -/
structure AccState where
  hex : List Char
  approx : List Char
  colors : ColorTable
deriving DecidableEq

/-- The state at program start: both buffers and the color table empty. -/
def initState : AccState := ⟨[], [], []⟩

/-- The recursive call of `write_out` on the just-cleared buffers: with
`hex` empty only the two empty-buffer arms of the Rust `match` are
reachable, i.e. a `TcpHeader` prints a banner and anything else is a no-op.
(`write_out` only calls this with a non-`Data` record, matching the source,
where the `Data` arm would have matched first.) -/
def dispatch_empty (st : AccState) (parsed : TcpdumpLine) : AccState × List Out :=
  match parsed with
  | .Tcp source dest _ =>
      let r1 := colored_string source.host st.colors
      let r2 := colored_string dest.host r1.2
      ({ st with colors := r2.2 }, [.banner r1.1 r2.1])
  | _ => (st, [])

/-- Embeds `fn write_out`, as a pure state transition returning the emitted
output events.  The arms mirror the source's `match (hex.len(), parsed)`
in order: any `Data` record appends `' '` plus its hex bytes to `hex` and
its approximation bytes to `approx`; a non-`Data` record with a non-empty
`hex` flushes via `write_repr`, clears both buffers and re-dispatches the
same record (`dispatch_empty`); on empty buffers a `Tcp` record prints the
banner and anything else does nothing. -/
def write_out (st : AccState) (parsed : TcpdumpLine) (repr : List Char) :
    AccState × List Out :=
  match st.hex, parsed with
  | _, .Data hx apprx =>
      ({ st with hex := st.hex ++ (' ' :: hx), approx := st.approx ++ apprx }, [])
  | _ :: _, p =>
      let outs := write_repr st.approx st.hex repr
      let r := dispatch_empty { st with hex := [], approx := [] } p
      (r.1, outs ++ r.2)
  | [], p => dispatch_empty st p

/-- The `stdinix` loop of `main`: fold `write_out` over the stream of
already-classified records, collecting the emitted output in order. -/
def processRecords (repr : List Char) : AccState → List TcpdumpLine → AccState × List Out
  | st, [] => (st, [])
  | st, r :: rs =>
      let p := write_out st r repr
      let q := processRecords repr p.1 rs
      (q.1, p.2 ++ q.2)

/-- Embeds `fn main` after argument parsing: run the loop from the initial state,
then, if `hex` is non-empty, perform the final end-of-stream `write_repr`. -/
def runMain (repr : List Char) (records : List TcpdumpLine) : List Out :=
  let r := processRecords repr initState records
  if r.1.hex = [] then r.2 else r.2 ++ write_repr r.1.approx r.1.hex repr

/-- Recognizer for banner events. -/
def isBanner : Out → Bool
  | .banner _ _ => true
  | _ => false

/-- Recognizer for flushed-line events on standard output. -/
def isLine : Out → Bool
  | .line _ => true
  | _ => false

/-- Tests whether `needle` occurs as a contiguous run inside `hay`. -/
def containsSub (needle : List Char) : List Char → Bool
  | [] => needle.isEmpty
  | c :: rest => needle.isPrefixOf (c :: rest) || containsSub needle rest

/-- The colored strings `colored_string` hands out to the `n`-th, `n+1`-th,
… fresh host strings when the table already holds `n` entries. -/
def slotsFrom (n : Nat) : List (List Char) → List ColoredStr
  | [] => []
  | s :: rest => ⟨s, paletteColor n⟩ :: slotsFrom (n + 1) rest

/-- The table entries created for those fresh host strings. -/
def newEntries (n : Nat) : List (List Char) → ColorTable
  | [] => []
  | s :: rest => (s, (⟨s, paletteColor n⟩ : ColoredStr)) :: newEntries (n + 1) rest

/-- Call `colored_string` once per host string, in order, threading the
table; returns the colors handed out and the final table. -/
def feedColors : List (List Char) → ColorTable → List ColoredStr × ColorTable
  | [], m => ([], m)
  | s :: rest, m =>
      let r := colored_string s m
      let q := feedColors rest r.2
      (r.1 :: q.1, q.2)

/-- The hex-buffer invariant: empty, or starting with a space. -/
def hexInv (st : AccState) : Prop :=
  st.hex = [] ∨ st.hex.head? = some ' '

/-! ## Reduction lemmas for the parser embedding -/

@[simp] theorem PResult.andThen_ok {α β : Type} (r : List Char) (v : α)
    (f : List Char → α → PResult β) : (PResult.ok r v).andThen f = f r v := rfl

@[simp] theorem PResult.andThen_error {α β : Type} (f : List Char → α → PResult β) :
    (PResult.error : PResult α).andThen f = .error := rfl

@[simp] theorem PResult.andThen_incomplete {α β : Type} (f : List Char → α → PResult β) :
    (PResult.incomplete : PResult α).andThen f = .incomplete := rfl

@[simp] theorem PResult.andThen_panic {α β : Type} (m : List Char)
    (f : List Char → α → PResult β) : (PResult.panic m : PResult α).andThen f = .panic m := rfl

@[simp] theorem PResult.orElse_ok {α : Type} (r : List Char) (v : α)
    (f : Unit → PResult α) : (PResult.ok r v).orElse f = .ok r v := rfl

@[simp] theorem PResult.orElse_error {α : Type} (f : Unit → PResult α) :
    (PResult.error : PResult α).orElse f = f () := rfl

@[simp] theorem PResult.orElse_incomplete {α : Type} (f : Unit → PResult α) :
    (PResult.incomplete : PResult α).orElse f = .incomplete := rfl

@[simp] theorem PResult.orElse_panic {α : Type} (m : List Char) (f : Unit → PResult α) :
    (PResult.panic m : PResult α).orElse f = .panic m := rfl

theorem takeWhile_append_all (p : Char → Bool) (xs : List Char) (c : Char)
    (rest : List Char) (hxs : ∀ a ∈ xs, p a = true) (hc : p c = false) :
    (xs ++ c :: rest).takeWhile p = xs := by
  induction xs with
  | nil => simp [List.takeWhile_cons, hc]
  | cons a as ih =>
      have ha : p a = true := hxs a (List.mem_cons_self a as)
      simp [List.takeWhile_cons, ha, ih fun b hb => hxs b (List.mem_cons_of_mem a hb)]

theorem dropWhile_append_all (p : Char → Bool) (xs : List Char) (c : Char)
    (rest : List Char) (hxs : ∀ a ∈ xs, p a = true) (hc : p c = false) :
    (xs ++ c :: rest).dropWhile p = c :: rest := by
  induction xs with
  | nil => simp [List.dropWhile_cons, hc]
  | cons a as ih =>
      have ha : p a = true := hxs a (List.mem_cons_self a as)
      simp [List.dropWhile_cons, ha, ih fun b hb => hxs b (List.mem_cons_of_mem a hb)]

/-- Running `nomTakeWhile1` on a non-empty block of matching bytes followed by a
failing byte succeeds, consuming exactly the block. -/
theorem nomTakeWhile1_append (p : Char → Bool) (xs : List Char) (c : Char)
    (rest : List Char) (hne : xs ≠ []) (hxs : ∀ a ∈ xs, p a = true)
    (hc : p c = false) :
    nomTakeWhile1 p (xs ++ c :: rest) = .ok (c :: rest) xs := by
  simp [nomTakeWhile1, takeWhile_append_all p xs c rest hxs hc,
    dropWhile_append_all p xs c rest hxs hc, hne]

/-- Parser `nomTakeWhile1` fails structurally when the very first byte fails `p`
(and the input is non-empty). -/
theorem nomTakeWhile1_cons_err (p : Char → Bool) (c : Char) (rest : List Char)
    (hc : p c = false) : nomTakeWhile1 p (c :: rest) = .error := by
  simp [nomTakeWhile1, List.takeWhile_cons, List.dropWhile_cons, hc]

theorem isPrefixOf_append_self (t rest : List Char) : t.isPrefixOf (t ++ rest) = true := by
  induction t with
  | nil => simp [List.isPrefixOf]
  | cons a as ih => simp [List.isPrefixOf, ih]

/-- Parser `nomTag` succeeds on any input beginning with the literal. -/
theorem nomTag_append (t rest : List Char) : nomTag t (t ++ rest) = .ok rest t := by
  simp [nomTag, isPrefixOf_append_self, List.drop_left]

/-! ## C1 and C2: the accumulator on `DataFragment` records -/

/-- C1 (corrected).  Feeding `TcpHeader`, three `DataFragment`s, then a
second `TcpHeader` from empty buffers flushes exactly once (at the second
header): the output is banner, one flushed line, banner, and the flushed
hex string is a leading space followed by the three 39-byte hex columns
joined by single spaces (each fragment's hex is prefixed by one space), in
arrival order.  The claim as stated, with no leading space, is refuted by
`c1_counterexample`. -/
theorem c1_accumulator_coalescing (sp dp sp2 dp2 : HostPort) (i1 i2 : List Char)
    (f1 a1 f2 a2 f3 a3 : List Char) :
    ∃ b1 b2 b3 b4 tbl,
      processRecords "hex".data initState
          [.Tcp sp dp i1, .Data f1 a1, .Data f2 a2, .Data f3 a3, .Tcp sp2 dp2 i2] =
        (⟨[], [], tbl⟩,
          [.banner b1 b2,
           .line (' ' :: (f1 ++ ' ' :: (f2 ++ ' ' :: f3))),
           .banner b3 b4]) ∧
      ((processRecords "hex".data initState
          [.Tcp sp dp i1, .Data f1 a1, .Data f2 a2, .Data f3 a3,
           .Tcp sp2 dp2 i2]).2.filter isLine).length = 1 := by
  have key : processRecords "hex".data initState
      [.Tcp sp dp i1, .Data f1 a1, .Data f2 a2, .Data f3 a3, .Tcp sp2 dp2 i2] =
      (⟨[], [],
        (colored_string dp2.host
          (colored_string sp2.host (colored_string dp.host (colored_string sp.host []).2).2).2).2⟩,
       [.banner (colored_string sp.host []).1 (colored_string dp.host (colored_string sp.host []).2).1,
        .line (' ' :: (f1 ++ ' ' :: (f2 ++ ' ' :: f3))),
        .banner (colored_string sp2.host (colored_string dp.host (colored_string sp.host []).2).2).1
          (colored_string dp2.host
            (colored_string sp2.host (colored_string dp.host (colored_string sp.host []).2).2).2).1]) := by
    simp [processRecords, write_out, dispatch_empty, write_repr, initState]
  refine ⟨_, _, _, _, _, key, ?_⟩
  rw [key]
  rfl

/-- C1, counterexample to the claim as stated: at a concrete input the
single flushed hex line is the space-join of the fragments *with a leading
space*, hence differs from the fragments joined by single spaces alone. -/
theorem c1_counterexample :
    ((processRecords "hex".data initState
        [.Tcp ⟨"192.168.0.10".data, "8008".data⟩ ⟨"192.168.0.20".data, "50314".data⟩
           ": Flags [.]".data,
         .Data "4500 0233 b512 4000 4006 0244 c0a8 000a".data "E..3..@.".data,
         .Data "0a14 1f90 c48a 8dd3 0ff2 4077 8018 01f6".data "........".data,
         .Data "0000 0101 080a c858 152c 3a12 dcaf 4745".data "......GE".data,
         .Tcp ⟨"192.168.0.20".data, "50314".data⟩ ⟨"192.168.0.10".data, "8008".data⟩
           ": Flags [.]".data]).2.filter isLine =
      [.line (' ' :: ("4500 0233 b512 4000 4006 0244 c0a8 000a 0a14 1f90 c48a 8dd3 0ff2 4077 8018 01f6 0000 0101 080a c858 152c 3a12 dcaf 4745").data)]) ∧
    (' ' :: ("4500 0233 b512 4000 4006 0244 c0a8 000a 0a14 1f90 c48a 8dd3 0ff2 4077 8018 01f6 0000 0101 080a c858 152c 3a12 dcaf 4745").data) ≠
      ("4500 0233 b512 4000 4006 0244 c0a8 000a 0a14 1f90 c48a 8dd3 0ff2 4077 8018 01f6 0000 0101 080a c858 152c 3a12 dcaf 4745").data := by
  constructor
  · decide
  · decide

/-- C2 (corrected).  When the buffers are empty and a `DataFragment`
arrives, nothing is flushed and no crash occurs — but the record is *not* a
no-op: the fragment is appended, leaving `hex = ' ' :: hx` and
`approx = apprx`, so the buffers become non-empty.  The claim's "buffers
stay empty and unchanged" is refuted by `c2_counterexample`. -/
theorem c2_data_on_empty_buffers (hx apprx repr : List Char) :
    write_out initState (.Data hx apprx) repr =
      (⟨' ' :: hx, apprx, []⟩, []) := by
  simp [write_out, initState]

/-- C2, counterexample to the claim as stated: at a concrete
`DataFragment`, processing from empty buffers emits nothing but changes the
state, so the buffers do not stay empty. -/
theorem c2_counterexample :
    (write_out initState (.Data "4500 0233".data "E..3".data) "approximation".data).1 ≠
        initState ∧
      (write_out initState (.Data "4500 0233".data "E..3".data) "approximation".data).2 = [] := by
  constructor
  · decide
  · decide

/-! ## C3 and C4: `parse_host_port` -/

theorem rposition_none_forall (p : Char → Bool) (l : List Char)
    (h : rposition p l = none) : ∀ c ∈ l, p c = false := by
  induction l with
  | nil => intro c hc; simp at hc
  | cons a as ih =>
      intro c hc
      unfold rposition at h
      cases hr : rposition p as with
      | some i => rw [hr] at h; simp at h
      | none =>
          rw [hr] at h
          by_cases hpa : p a
          · simp [hpa] at h
          · rcases List.mem_cons.mp hc with rfl | hmem
            · simpa using hpa
            · exact ih hr c hmem

theorem rposition_eq_none (p : Char → Bool) (l : List Char)
    (h : ∀ c ∈ l, p c = false) : rposition p l = none := by
  induction l with
  | nil => rfl
  | cons a as ih =>
      have := ih fun c hc => h c (List.mem_cons_of_mem a hc)
      simp [rposition, this, h a (List.mem_cons_self a as)]

theorem rposition_spec (p : Char → Bool) (l : List Char) (i : Nat)
    (h : rposition p l = some i) :
    ∃ c, p c = true ∧ l.take i ++ c :: l.drop (i + 1) = l ∧
      ∀ a ∈ l.drop (i + 1), p a = false := by
  induction l generalizing i with
  | nil => simp [rposition] at h
  | cons a as ih =>
      unfold rposition at h
      cases hr : rposition p as with
      | some j =>
          rw [hr] at h
          have hi : i = j + 1 := by simpa using h.symm
          subst hi
          obtain ⟨c, hpc, heq, hafter⟩ := ih j hr
          exact ⟨c, hpc, by simpa [List.take, List.drop] using heq, hafter⟩
      | none =>
          rw [hr] at h
          by_cases hpa : p a
          · have hi : i = 0 := by simp [hpa] at h; omega
            subst hi
            exact ⟨a, hpa, rfl, rposition_none_forall p as hr⟩
          · simp [hpa] at h

theorem rposition_isSome_of_mem (p : Char → Bool) (l : List Char)
    (h : ∃ c ∈ l, p c = true) : ∃ i, rposition p l = some i := by
  induction l with
  | nil => simp at h
  | cons a as ih =>
      cases hr : rposition p as with
      | some j => exact ⟨j + 1, by simp [rposition, hr]⟩
      | none =>
          obtain ⟨c, hc, hpc⟩ := h
          rcases List.mem_cons.mp hc with rfl | hmem
          · exact ⟨0, by simp [rposition, hr, hpc]⟩
          · have := rposition_none_forall p as hr c hmem
            rw [this] at hpc; cases hpc

/-- C4 (confirmed).  For every address token containing at least one
`'.'`, `parse_host_port` splits the token at its last separator: the result
is `ok ⟨h, p⟩` with the token equal to `h ++ '.' :: p` and no `'.'` in `p`
(so the split is at the rightmost dot, the host is everything before it and
the port everything after it); in particular `"192.168.0.10.8008"` yields
host `"192.168.0.10"` and port `"8008"`. -/
theorem c4_host_port_split :
    (∀ input : List Char, '.' ∈ input →
      ∃ h p, parse_host_port input = .ok ⟨h, p⟩ ∧
        input = h ++ '.' :: p ∧ '.' ∉ p) ∧
    parse_host_port "192.168.0.10.8008".data =
      .ok ⟨"192.168.0.10".data, "8008".data⟩ := by
  constructor
  · intro input hdot
    obtain ⟨i, hi⟩ := rposition_isSome_of_mem (fun v => v == '.') input
      ⟨'.', hdot, by simp⟩
    obtain ⟨c, hpc, heq, hafter⟩ := rposition_spec (fun v => v == '.') input i hi
    have hc : c = '.' := by simpa using hpc
    subst hc
    refine ⟨input.take i, input.drop (i + 1), ?_, heq.symm, ?_⟩
    · simp [parse_host_port, hi]
    · intro hmem
      have := hafter '.' hmem
      simp at this
  · rfl

/-- C4, witness: the split theorem applied at the concrete token
`"192.168.0.10.8008"`. -/
theorem c4_witness :
    ('.' ∈ "192.168.0.10.8008".data) ∧
    (∃ h p, parse_host_port "192.168.0.10.8008".data = .ok ⟨h, p⟩ ∧
      "192.168.0.10.8008".data = h ++ '.' :: p ∧ '.' ∉ p) :=
  ⟨by decide, c4_host_port_split.1 "192.168.0.10.8008".data (by decide)⟩

/-- C3 (corrected).  A `HostPort` token with no `'.'` separator is fatal
for the whole run: the `rposition(..).unwrap()` in `parse_host_port` panics,
which unwinds out of the whole line parser (no `alt` branch catches it) and
stops the process.  The diagnostic written to the error channel, however, is
the fixed `Option::unwrap` panic message, which does *not* name the
offending bytes (`c3_counterexample`). -/
theorem c3_host_port_fatal :
    (∀ input : List Char, '.' ∉ input →
      parse_host_port input = .error unwrapPanicMsg) ∧
    tcpdumpParser "    localhost > 192.168.0.10.8008: Flags [.]\n".data =
      .panic unwrapPanicMsg := by
  constructor
  · intro input hdot
    have hall : ∀ c ∈ input, (fun v => v == '.') c = false := by
      intro c hc
      simp only [beq_eq_false_iff_ne, ne_eq]
      rintro rfl
      exact hdot hc
    simp [parse_host_port, rposition_eq_none _ _ hall]
  · decide

/-- C3, witness: the fatal-panic theorem applied at the concrete
separator-free token `"localhost"`. -/
theorem c3_witness :
    ('.' ∉ "localhost".data) ∧
    parse_host_port "localhost".data = .error unwrapPanicMsg :=
  ⟨by decide, c3_host_port_fatal.1 "localhost".data (by decide)⟩

/-- C3, counterexample to the claim as stated: for the separator-free
token `"localhost"` the run is stopped by the unwrap panic, but the panic
message does not contain the offending bytes, so no "diagnostic naming the
offending bytes" is written. -/
theorem c3_counterexample :
    parse_host_port "localhost".data = .error unwrapPanicMsg ∧
    containsSub "localhost".data unwrapPanicMsg = false := by
  constructor
  · rfl
  · decide

/-! ## C5: the host color table -/

theorem lookupTbl_append_of_none (s : List Char) (m m2 : ColorTable)
    (h : lookupTbl s m = none) : lookupTbl s (m ++ m2) = lookupTbl s m2 := by
  induction m with
  | nil => rfl
  | cons a rest ih =>
      obtain ⟨k, c⟩ := a
      by_cases hk : k = s
      · simp [lookupTbl, hk] at h
      · simpa [lookupTbl, hk] using ih (by simpa [lookupTbl, hk] using h)

theorem lookupTbl_append_of_some (s : List Char) (m m2 : ColorTable) (c : ColoredStr)
    (h : lookupTbl s m = some c) : lookupTbl s (m ++ m2) = some c := by
  induction m with
  | nil => simp [lookupTbl] at h
  | cons a rest ih =>
      obtain ⟨k, c'⟩ := a
      by_cases hk : k = s
      · simpa [lookupTbl, hk] using h
      · simpa [lookupTbl, hk] using ih (by simpa [lookupTbl, hk] using h)

theorem feedColors_fresh (l : List (List Char)) (m : ColorTable)
    (hfresh : ∀ s ∈ l, lookupTbl s m = none) (hnd : l.Nodup) :
    feedColors l m = (slotsFrom m.length l, m ++ newEntries m.length l) := by
  induction l generalizing m with
  | nil => simp [feedColors, slotsFrom, newEntries]
  | cons s rest ih =>
      have hs : lookupTbl s m = none := hfresh s (List.mem_cons_self s rest)
      have step : colored_string s m =
          (⟨s, paletteColor m.length⟩, m ++ [(s, ⟨s, paletteColor m.length⟩)]) := by
        simp [colored_string, hs]
      have hfresh2 : ∀ t ∈ rest,
          lookupTbl t (m ++ [(s, (⟨s, paletteColor m.length⟩ : ColoredStr))]) = none := by
        intro t ht
        rw [lookupTbl_append_of_none t m _ (hfresh t (List.mem_cons_of_mem s ht))]
        have hts : s ≠ t := fun he => (List.nodup_cons.mp hnd).1 (he ▸ ht)
        simp [lookupTbl, hts]
      have ihr := ih (m ++ [(s, ⟨s, paletteColor m.length⟩)]) hfresh2
        (List.nodup_cons.mp hnd).2
      simp only [feedColors, step, ihr, List.length_append, List.length_singleton]
      simp [slotsFrom, newEntries, List.append_assoc]

/-- C5 (confirmed).  Color assignment is idempotent and first-seen
cyclic: (1) a second `colored_string` call with the same host string
returns the same colored string and leaves the table unchanged; (2) feeding
`N` pairwise-distinct host strings into an empty table hands the `k`-th
string (0-based, first-seen order) the palette color of slot `k % 6`
(`slotsFrom`/`paletteColor`), independent of the strings' content, and
records exactly those entries in order; (3) an existing entry is never
removed or reassigned by any later call. -/
theorem c5_color_assignment :
    (∀ s m, colored_string s (colored_string s m).2 = colored_string s m) ∧
    (∀ l : List (List Char), l.Nodup →
      feedColors l [] = (slotsFrom 0 l, newEntries 0 l)) ∧
    (∀ s t m c, lookupTbl t m = some c →
      lookupTbl t (colored_string s m).2 = some c) := by
  refine ⟨?_, ?_, ?_⟩
  · intro s m
    cases hl : lookupTbl s m with
    | some c => simp [colored_string, hl]
    | none =>
        have h2 : lookupTbl s (m ++ [(s, (⟨s, paletteColor m.length⟩ : ColoredStr))]) =
            some ⟨s, paletteColor m.length⟩ := by
          rw [lookupTbl_append_of_none s m _ hl]
          simp [lookupTbl]
        simp [colored_string, hl, h2]
  · intro l hnd
    simpa using feedColors_fresh l [] (by simp [lookupTbl]) hnd
  · intro s t m c h
    cases hl : lookupTbl s m with
    | some c' => simpa [colored_string, hl] using h
    | none =>
        simp only [colored_string, hl]
        exact lookupTbl_append_of_some t m _ c h

/-- C5, witness: seven distinct host strings get the palette slots
`0,1,2,3,4,5,0` in first-seen order (wrapping around after six), and an
entry, once made, survives a later call with a different host. -/
theorem c5_witness :
    ([ "a".data, "bb".data, "ccc".data, "d".data, "e".data, "f".data, "g".data ].Nodup) ∧
    (feedColors
        [ "a".data, "bb".data, "ccc".data, "d".data, "e".data, "f".data, "g".data ] []).1 =
      [⟨"a".data, .Red⟩, ⟨"bb".data, .Green⟩, ⟨"ccc".data, .Yellow⟩, ⟨"d".data, .Blue⟩,
       ⟨"e".data, .Magenta⟩, ⟨"f".data, .Cyan⟩, ⟨"g".data, .Red⟩] ∧
    (lookupTbl "a".data [("a".data, (⟨"a".data, .Red⟩ : ColoredStr))] = some ⟨"a".data, .Red⟩) ∧
    lookupTbl "a".data
        (colored_string "zz".data [("a".data, (⟨"a".data, .Red⟩ : ColoredStr))]).2 =
      some ⟨"a".data, .Red⟩ := by
  refine ⟨by decide, ?_, by decide, ?_⟩
  · have h := c5_color_assignment.2.1
      [ "a".data, "bb".data, "ccc".data, "d".data, "e".data, "f".data, "g".data ] (by decide)
    rw [h]
    decide
  · exact c5_color_assignment.2.2 "zz".data "a".data
      [("a".data, (⟨"a".data, .Red⟩ : ColoredStr))] ⟨"a".data, .Red⟩ (by decide)

/-! ## C6 and C9: the line grammar -/

/-- C6 (confirmed).  For every valid line `"<ts> IP <rest>"` — `ts` a
non-empty token with no (ASCII) whitespace, `rest` a non-empty remainder
with no `'\n'` — the grammar, fed the line together with its terminating
newline (exactly as `main` delivers lines, and as the repository's own
tests do), returns `Ip ts rest` with byte-exact spans, consuming the whole
line: only the newline terminator remains. -/
theorem c6_ip_line (ts rest : List Char) (hts_ne : ts ≠ [])
    (hts : ∀ c ∈ ts, isAsciiWhitespace c = false)
    (hrest_ne : rest ≠ []) (hrest : '\n' ∉ rest) :
    tcpdumpParser (ts ++ " IP ".data ++ (rest ++ ['\n'])) =
      .ok ['\n'] (.Ip ts rest) := by
  rw [List.append_assoc]
  have h1 : parse_timestamp (ts ++ (" IP ".data ++ (rest ++ ['\n']))) =
      .ok (" IP ".data ++ (rest ++ ['\n'])) ts :=
    nomTakeWhile1_append _ ts ' ' ("IP ".data ++ (rest ++ ['\n'])) hts_ne
      (fun a ha => by simp [hts a ha]) (by decide)
  have h2 : nomTag " IP ".data (" IP ".data ++ (rest ++ ['\n'])) =
      .ok (rest ++ ['\n']) " IP ".data :=
    nomTag_append " IP ".data (rest ++ ['\n'])
  have h3 : frame_info (rest ++ ['\n']) = .ok ['\n'] rest :=
    nomTakeWhile1_append _ rest '\n' [] hrest_ne
      (fun a ha => by
        simp only [bne_iff_ne, ne_eq, decide_eq_true_eq]
        exact fun he => hrest (he ▸ ha))
      (by decide)
  simp only [tcpdumpParser, nomAlt3, parse_ip_line, nomMap, nomSeparatedPair,
    h1, h2, h3, PResult.andThen_ok, PResult.orElse_ok]

/-- C6, witness: the theorem at a concrete capture line. -/
theorem c6_witness :
    ("00:55:30.853902".data ≠ ([] : List Char)) ∧
    (∀ c ∈ "00:55:30.853902".data, isAsciiWhitespace c = false) ∧
    ("(tos 0x0, ttl 63, id 60304)".data ≠ ([] : List Char)) ∧
    ('\n' ∉ "(tos 0x0, ttl 63, id 60304)".data) ∧
    tcpdumpParser ("00:55:30.853902".data ++ " IP ".data ++
        ("(tos 0x0, ttl 63, id 60304)".data ++ ['\n'])) =
      .ok ['\n'] (.Ip "00:55:30.853902".data "(tos 0x0, ttl 63, id 60304)".data) :=
  ⟨by decide, by decide, by decide, by decide,
    c6_ip_line "00:55:30.853902".data "(tos 0x0, ttl 63, id 60304)".data
      (by decide) (by decide) (by decide) (by decide)⟩

/-- C9 (confirmed).  The grammar distinguishes incomplete from
malformed input: on a data line whose offset column and `":  "` literal
matched but with fewer than the required 39 hex-column bytes remaining,
the whole-line parser reports `incomplete` ("needs more input"), not the
structural `error` (the first two alternatives fail structurally, and the
data alternative stops at the streaming `take(39)`). -/
theorem c9_incomplete_not_error (h : List Char) (hlen : h.length < 39) :
    tcpdumpParser ("        0x0000:  ".data ++ h) = .incomplete := by
  have e1 : parse_ip_line ("        0x0000:  ".data ++ h) = .error := by
    have hts : parse_timestamp ("        0x0000:  ".data ++ h) = .error :=
      nomTakeWhile1_cons_err (fun c => !(isAsciiWhitespace c)) ' '
        ("       0x0000:  ".data ++ h) (by decide)
    simp only [parse_ip_line, nomMap, nomSeparatedPair, hts, PResult.andThen_error]
  have e2 : parse_tcp_line ("        0x0000:  ".data ++ h) = .error := by
    have htag : nomTag "    ".data ("        0x0000:  ".data ++ h) =
        .ok ("    0x0000:  ".data ++ h) "    ".data :=
      nomTag_append "    ".data ("    0x0000:  ".data ++ h)
    have hnw : not_whitespace ("    0x0000:  ".data ++ h) = .error :=
      nomTakeWhile1_cons_err (fun c => !(isAsciiWhitespace c)) ' '
        ("   0x0000:  ".data ++ h) (by decide)
    simp only [parse_tcp_line, nomMap, nomPair, tcp_source, nomMapE, nomPreceded,
      htag, PResult.andThen_ok, hnw, PResult.andThen_error]
  have e3 : parse_data_line ("        0x0000:  ".data ++ h) = .incomplete := by
    have hoff : offset ("        0x0000:  ".data ++ h) =
        .ok (":  ".data ++ h) "        0x0000".data :=
      nomTakeWhile1_append (fun c => c != ':') "        0x0000".data ':'
        ("  ".data ++ h) (by decide) (by decide) (by decide)
    have hdata : data (":  ".data ++ h) = .incomplete := by
      have htag2 : nomTag ":  ".data (":  ".data ++ h) = .ok h ":  ".data :=
        nomTag_append ":  ".data h
      have htake : nomTake 39 h = .incomplete := by simp [nomTake, hlen]
      simp only [data, nomPreceded, htag2, PResult.andThen_ok, htake]
    simp only [parse_data_line, nomMap, nomPair, hoff, PResult.andThen_ok, hdata,
      PResult.andThen_incomplete]
  simp only [tcpdumpParser, nomAlt3, e1, e2, e3, PResult.orElse_error]

/-- C9, witness: a truncated hex column (17 of 39 bytes) after a
matched `":  "` literal yields `incomplete` at a concrete input. -/
theorem c9_witness :
    ("4500 0233 b512 40".data.length < 39) ∧
    tcpdumpParser ("        0x0000:  ".data ++ "4500 0233 b512 40".data) =
      .incomplete :=
  ⟨by decide, c9_incomplete_not_error "4500 0233 b512 40".data (by decide)⟩

/-! ## C7, C8 and C10: flushing, modes, and the leading-space invariant -/

/-- Helper: `write_repr` always emits exactly one event, never a banner. -/
theorem write_repr_singleton (a hx r : List Char) :
    ∃ e, write_repr a hx r = [e] ∧ isBanner e = false := by
  unfold write_repr
  split
  · exact ⟨.line a, rfl, rfl⟩
  · split
    · exact ⟨.line hx, rfl, rfl⟩
    · exact ⟨.err "Data ignored".data, rfl, rfl⟩

/-- In `"hex"` mode a flush emits exactly the hex buffer. -/
theorem write_repr_hex (a hx : List Char) : write_repr a hx "hex".data = [.line hx] := by
  unfold write_repr
  rw [if_neg (by decide), if_pos rfl]

/-- C7 (confirmed).  If the stream ends while the accumulator is
non-empty, exactly one final flush occurs — `main` appends exactly one
event, which is not a banner, after the loop's output; if the accumulator
is empty at end of stream, no final flush occurs (the output is exactly the
loop's). -/
theorem c7_end_of_stream_flush (repr : List Char) (records : List TcpdumpLine) :
    ((processRecords repr initState records).1.hex = [] →
      runMain repr records = (processRecords repr initState records).2) ∧
    ((processRecords repr initState records).1.hex ≠ [] →
      ∃ e, runMain repr records = (processRecords repr initState records).2 ++ [e] ∧
        isBanner e = false) := by
  constructor
  · intro hh
    simp [runMain, hh]
  · intro hh
    obtain ⟨e, he, hb⟩ := write_repr_singleton
      (processRecords repr initState records).1.approx
      (processRecords repr initState records).1.hex repr
    exact ⟨e, by simp [runMain, hh, he], hb⟩

/-- C7, witness: the theorem applied to an empty stream (no final
flush) and to a stream ending in a `DataFragment` (one final non-banner
flush). -/
theorem c7_witness :
    ((processRecords "hex".data initState []).1.hex = []) ∧
    (runMain "hex".data [] = (processRecords "hex".data initState []).2) ∧
    ((processRecords "hex".data initState [.Data "4500".data "E.".data]).1.hex ≠ []) ∧
    (∃ e, runMain "hex".data [.Data "4500".data "E.".data] =
      (processRecords "hex".data initState [.Data "4500".data "E.".data]).2 ++ [e] ∧
      isBanner e = false) :=
  ⟨by decide, (c7_end_of_stream_flush "hex".data []).1 (by decide), by decide,
    (c7_end_of_stream_flush "hex".data [.Data "4500".data "E.".data]).2 (by decide)⟩

/-- C8 (confirmed).  With a configured mode other than
`"approximation"` or `"hex"`, every flush writes the `"Data ignored"`
diagnostic to the error channel and emits no line on standard output, and
the stream keeps being processed: in a header–data–header run the flush
produces only the diagnostic, and the following banner is still emitted. -/
theorem c8_unrecognized_mode (repr : List Char)
    (h1 : repr ≠ "approximation".data) (h2 : repr ≠ "hex".data) :
    (∀ a hx, write_repr a hx repr = [.err "Data ignored".data]) ∧
    (∀ sp dp sp2 dp2 i1 i2 hx a, ∃ b1 b2 b3 b4 tbl,
      processRecords repr initState
          [.Tcp sp dp i1, .Data hx a, .Tcp sp2 dp2 i2] =
        (⟨[], [], tbl⟩,
         [.banner b1 b2, .err "Data ignored".data, .banner b3 b4])) := by
  constructor
  · intro a hx
    unfold write_repr
    rw [if_neg h1, if_neg h2]
  · intro sp dp sp2 dp2 i1 i2 hx a
    have key : processRecords repr initState
        [.Tcp sp dp i1, .Data hx a, .Tcp sp2 dp2 i2] =
        (⟨[], [],
          (colored_string dp2.host
            (colored_string sp2.host
              (colored_string dp.host (colored_string sp.host []).2).2).2).2⟩,
         [.banner (colored_string sp.host []).1
            (colored_string dp.host (colored_string sp.host []).2).1,
          .err "Data ignored".data,
          .banner (colored_string sp2.host
              (colored_string dp.host (colored_string sp.host []).2).2).1
            (colored_string dp2.host
              (colored_string sp2.host
                (colored_string dp.host (colored_string sp.host []).2).2).2).1]) := by
      simp [processRecords, write_out, dispatch_empty, write_repr, initState, h1, h2]
    exact ⟨_, _, _, _, _, key⟩

/-- C8, witness: the theorem at the concrete unrecognized mode
`"hexadecimal"`. -/
theorem c8_witness :
    ("hexadecimal".data ≠ "approximation".data) ∧
    ("hexadecimal".data ≠ "hex".data) ∧
    write_repr "abc".data " 4500".data "hexadecimal".data =
      [.err "Data ignored".data] :=
  ⟨by decide, by decide,
    (c8_unrecognized_mode "hexadecimal".data (by decide) (by decide)).1
      "abc".data " 4500".data⟩

/-- One `write_out` step in `"hex"` mode preserves the leading-space
invariant of the hex buffer, and every flushed line it emits starts with a
space. -/
theorem write_out_hex_inv (st : AccState) (p : TcpdumpLine) (hinv : hexInv st) :
    hexInv (write_out st p "hex".data).1 ∧
    ∀ s, Out.line s ∈ (write_out st p "hex".data).2 → s.head? = some ' ' := by
  obtain ⟨hx0, ap0, cl0⟩ := st
  rcases hinv with h0 | hh
  · simp only [AccState.hex] at h0
    subst h0
    cases p with
    | Data hx apprx =>
        refine ⟨Or.inr ?_, by simp [write_out]⟩
        simp [write_out]
    | Ip ts fi =>
        exact ⟨Or.inl (by simp [write_out, dispatch_empty]), by simp [write_out, dispatch_empty]⟩
    | Tcp s d i =>
        exact ⟨Or.inl (by simp [write_out, dispatch_empty]), by simp [write_out, dispatch_empty]⟩
  · simp only [AccState.hex] at hh
    cases hx0 with
    | nil => simp at hh
    | cons c rest =>
        have hc : c = ' ' := by simpa using hh
        subst hc
        cases p with
        | Data hx apprx =>
            refine ⟨Or.inr (by simp [write_out]), by simp [write_out]⟩
        | Ip ts fi =>
            refine ⟨Or.inl (by simp [write_out, dispatch_empty]), ?_⟩
            intro s hs
            simp [write_out, dispatch_empty, write_repr] at hs
            subst hs
            rfl
        | Tcp s d i =>
            refine ⟨Or.inl (by simp [write_out, dispatch_empty]), ?_⟩
            intro s hs
            simp [write_out, dispatch_empty, write_repr] at hs
            subst hs
            rfl

/-- The loop preserves the invariant and the flushed-line property. -/
theorem processRecords_hex_inv (records : List TcpdumpLine) (st : AccState)
    (hinv : hexInv st) :
    hexInv (processRecords "hex".data st records).1 ∧
    ∀ s, Out.line s ∈ (processRecords "hex".data st records).2 →
      s.head? = some ' ' := by
  induction records generalizing st with
  | nil => exact ⟨hinv, by simp [processRecords]⟩
  | cons r rs ih =>
      obtain ⟨h1, h2⟩ := write_out_hex_inv st r hinv
      obtain ⟨h3, h4⟩ := ih (write_out st r "hex".data).1 h1
      refine ⟨by simpa [processRecords] using h3, ?_⟩
      intro s hs
      simp only [processRecords, List.mem_append] at hs
      rcases hs with hs | hs
      · exact h2 s hs
      · exact h4 s hs

/-- C10 (confirmed).  Whenever the hex buffer of a state reachable from
the start state is non-empty, its first character is a space (every
appended `DataFragment` is prefixed by a separating space, even the first
one after a flush); consequently, in `"hex"` mode, every flushed line of
the whole run — the loop's flushes and the end-of-stream flush alike —
begins with a space character. -/
theorem c10_leading_space (records : List TcpdumpLine) :
    hexInv (processRecords "hex".data initState records).1 ∧
    ∀ s, Out.line s ∈ runMain "hex".data records → s.head? = some ' ' := by
  obtain ⟨h1, h2⟩ := processRecords_hex_inv records initState (Or.inl rfl)
  refine ⟨h1, ?_⟩
  intro s hs
  have hrm : runMain "hex".data records =
      (if (processRecords "hex".data initState records).1.hex = [] then
        (processRecords "hex".data initState records).2
      else
        (processRecords "hex".data initState records).2 ++
          write_repr (processRecords "hex".data initState records).1.approx
            (processRecords "hex".data initState records).1.hex "hex".data) := rfl
  rw [hrm] at hs
  by_cases hh : (processRecords "hex".data initState records).1.hex = []
  · rw [if_pos hh] at hs
    exact h2 s hs
  · rw [if_neg hh, List.mem_append] at hs
    rcases hs with hs | hs
    · exact h2 s hs
    · have hsh : s = (processRecords "hex".data initState records).1.hex := by
        simpa [write_repr] using hs
      subst hsh
      rcases h1 with h1 | h1
      · exact absurd h1 hh
      · exact h1

/-- C10, witness: in a concrete banner-then-data run the single flushed
line is `" 4500"`, which is in the output and starts with a space. -/
theorem c10_witness :
    (Out.line " 4500".data ∈
      runMain "hex".data
        [.Tcp ⟨"a".data, "1".data⟩ ⟨"b".data, "2".data⟩ ": i".data,
         .Data "4500".data "E.".data]) ∧
    (" 4500".data.head? = some ' ') :=
  ⟨by decide,
    (c10_leading_space
        [.Tcp ⟨"a".data, "1".data⟩ ⟨"b".data, "2".data⟩ ": i".data,
         .Data "4500".data "E.".data]).2 " 4500".data (by decide)⟩
